import Mathlib

/-!
Verification development for the `AdvancedCache` component of the repository
(`tools/advanced-cache.js`): a two-tier (memory tier plus simulated disk tier)
response cache with deflate compression above a size threshold, TTL expiry,
LRU eviction on the memory tier, oldest-first eviction on the disk tier,
single-key and pattern invalidation, token-overlap (Jaccard) similarity
search, and hit/miss statistics.

Modelling conventions:
* A JSON-serializable JavaScript value is modelled by its JSON serialization
  (a `String`); deep equality of values is equality of serializations, and
  `JSON.stringify(value).length` is the string length.
* Timestamps and sizes are `Nat`.  All reads of `Date.now()` inside one
  method call are modelled as a single instant `now` passed explicitly.
* `JSON.stringify`/`deflateSync`/`base64` (the `zlib` library, external to
  the repository) are modelled by an injective, losslessly invertible
  encoding: `compress` prepends a marker character to the serialized value,
  `decompress` strips it.  This preserves exactly the properties the code
  relies on: the compressed form is a string, it is distinct from the raw
  serialized value, and decompression reconstructs the original exactly.
* `crypto.createHash('sha256')...digest('hex')` (the `crypto` library,
  external to the repository) is modelled by an injective marker encoding of
  the key; hash collisions are disregarded, as the design accepts them.
  Node's `hash.update(data)` throws a `TypeError` when `data` is `null`,
  which is modelled by `hashKeyNullable` returning an error for `none`.
* JavaScript `Map` preserves insertion order and keeps the original position
  of a key on overwrite; it is modelled as an association list with
  replace-in-place update and append-at-end insertion.
-/

namespace AdvancedCache

/-- A JSON-serializable JavaScript value, modelled by its JSON
serialization. -/
abbrev JsValue := String

/-- Mirrors the entry object literal built in `AdvancedCache.set`:
`{ key, value, hash, timestamp, ttl, expiresAt, accessCount, lastAccess,
compressed, metadata }`.  `metadata` is the caller's free-form side channel,
modelled as an optional opaque string (`none` is the default `{}`). -/
structure CacheEntry where
  key : String
  value : JsValue
  hash : String
  timestamp : Nat
  ttl : Nat
  expiresAt : Nat
  accessCount : Nat
  lastAccess : Nat
  compressed : Bool
  metadata : Option String
deriving DecidableEq

/-- The `this.stats` record of counters. -/
structure CacheStats where
  hits : Nat
  misses : Nat
  compression : Nat
  evictions : Nat
deriving DecidableEq

/-- Constructor options of `AdvancedCache` (after the `||`-defaulting in the
constructor): the fields `storageDir` is irrelevant to the claims and the
semantic threshold default is carried for completeness. -/
structure CacheConfig where
  maxMemorySize : Nat
  maxDiskSize : Nat
  compressionThreshold : Nat
  ttl : Nat
  semanticThreshold : ℚ
deriving DecidableEq

/-- A JavaScript `Map` from hash strings to entries, modelled as an
insertion-ordered association list. -/
abbrev EMap := List (String × CacheEntry)

/-- `Map.prototype.get` on the association list. -/
def mapGet : EMap → String → Option CacheEntry
  | [], _ => none
  | (k', e) :: rest, k => if k' = k then some e else mapGet rest k

/-- `Map.prototype.has`. -/
def mapHas (m : EMap) (k : String) : Bool := (mapGet m k).isSome

/-- `Map.prototype.set`: overwrite in place when the key is present
(JavaScript `Map` keeps the original insertion position), append at the end
otherwise. -/
def mapSet : EMap → String → CacheEntry → EMap
  | [], k, e => [(k, e)]
  | (k', e') :: rest, k, e =>
      if k' = k then (k, e) :: rest else (k', e') :: mapSet rest k e

/-- `Map.prototype.delete`: drop the binding of the key. -/
def mapDelete : EMap → String → EMap
  | [], _ => []
  | (k', e') :: rest, k =>
      if k' = k then mapDelete rest k else (k', e') :: mapDelete rest k

/-- The whole mutable state of one `AdvancedCache` instance: the two tier
maps and the counters. -/
structure CacheState where
  memoryCache : EMap
  diskCache : EMap
  stats : CacheStats
deriving DecidableEq

/-- The state of a freshly constructed `AdvancedCache`. -/
def emptyState : CacheState :=
  { memoryCache := [], diskCache := [], stats := ⟨0, 0, 0, 0⟩ }

/-- `getSize(value)`: `JSON.stringify(value).length`; since a value is
modelled by its serialization this is the string length. -/
def getSize (value : JsValue) : Nat := value.length

/-- `compress(value)`: `zlib.deflateSync(JSON.stringify(value)).toString('base64')`.
The external deflate/base64 pipeline is modelled by an injective marker
encoding (see the header comment). -/
def compress (value : JsValue) : JsValue := String.mk ('Z' :: value.data)

/-- `decompress(compressed, wasCompressed)`: identity when the flag is
false, otherwise base64-decode, inflate and `JSON.parse` — modelled as
stripping the marker of `compress`. -/
def decompress (compressed : JsValue) (wasCompressed : Bool) : JsValue :=
  if wasCompressed then String.mk (compressed.data.drop 1) else compressed

/-- `hashKey(key)`: the SHA-256 hex digest of the key.  The external hash is
modelled by an injective marker encoding of the key (collisions are
disregarded; the design treats colliding keys as indistinguishable). -/
def hashKey (key : String) : String := String.mk ('#' :: key.data)

/-- Node's `crypto` `hash.update(data)` rejects `null` with a `TypeError`;
`invalidate` calls `hashKey` on its `key` argument unconditionally, so the
nullable entry point is modelled separately. -/
inductive JsError where
  | typeError
deriving DecidableEq

/-- `hashKey` as invoked on a possibly-`null` key: `null` makes
`crypto.Hash.update` throw a `TypeError`. -/
def hashKeyNullable : Option String → Except JsError String
  | none => .error .typeError
  | some k => .ok (hashKey k)

/-- `isExpired(entry)`: `Date.now() > entry.expiresAt`. -/
def isExpired (entry : CacheEntry) (now : Nat) : Bool :=
  decide (entry.expiresAt < now)

/-- The repeated reduce `Array.from(map.values()).reduce((sum, entry) =>
sum + this.getSize(entry.value), 0)` used by the eviction checks and the
usage reports. -/
def sizeUsage (m : EMap) : Nat := (m.map fun p => getSize p.2.value).sum

/-- `getMemorySizeUsage()`. -/
def getMemorySizeUsage (st : CacheState) : Nat := sizeUsage st.memoryCache

/-- `getDiskSizeUsage()`. -/
def getDiskSizeUsage (st : CacheState) : Nat := sizeUsage st.diskCache

/-- First element of `values().sort((a, b) => a.lastAccess - b.lastAccess)`:
JavaScript's sort is stable, so this is the first entry (in map insertion
order) attaining the minimal `lastAccess`. -/
def minByLastAccess : List CacheEntry → Option CacheEntry
  | [] => none
  | e :: es =>
      match minByLastAccess es with
      | none => some e
      | some m => if e.lastAccess ≤ m.lastAccess then some e else some m

/-- First element of `values().sort((a, b) => a.timestamp - b.timestamp)`:
first entry (in map insertion order) attaining the minimal creation
timestamp. -/
def minByTimestamp : List CacheEntry → Option CacheEntry
  | [] => none
  | e :: es =>
      match minByTimestamp es with
      | none => some e
      | some m => if e.timestamp ≤ m.timestamp then some e else some m

/-- `checkMemoryEviction()`: when the summed stored sizes of the memory tier
strictly exceed `maxMemorySize`, delete the least-recently-used entry (by
`lastAccess`) and bump the eviction counter.  At most one entry is removed
per invocation.  The `none` branch of the match is unreachable when the
guard holds (a nonempty sum forces a nonempty map). -/
def checkMemoryEviction (cfg : CacheConfig) (st : CacheState) : CacheState :=
  if sizeUsage st.memoryCache > cfg.maxMemorySize then
    match minByLastAccess (st.memoryCache.map Prod.snd) with
    | some toEvict =>
        { st with
          memoryCache := mapDelete st.memoryCache toEvict.hash,
          stats := { st.stats with evictions := st.stats.evictions + 1 } }
    | none => st
  else st

/-- `checkDiskEviction()`: same shape as the memory check, but over the disk
tier with the oldest creation timestamp as the victim. -/
def checkDiskEviction (cfg : CacheConfig) (st : CacheState) : CacheState :=
  if sizeUsage st.diskCache > cfg.maxDiskSize then
    match minByTimestamp (st.diskCache.map Prod.snd) with
    | some toEvict =>
        { st with
          diskCache := mapDelete st.diskCache toEvict.hash,
          stats := { st.stats with evictions := st.stats.evictions + 1 } }
    | none => st
  else st

/-- Options record of `set`. -/
structure SetOptions where
  ttl : Option Nat := none
  metadata : Option String := none
deriving DecidableEq

/-- JavaScript `options.ttl || this.ttl`: `undefined` and `0` are falsy and
fall back to the default. -/
def jsOrNat (x : Option Nat) (d : Nat) : Nat :=
  match x with
  | none => d
  | some t => if t = 0 then d else t

/-- The entry object literal built at the start of `set`, after the
compression step has possibly replaced `entry.value` and set the flag. -/
def setEntry (cfg : CacheConfig) (key : String) (value : JsValue)
    (opts : SetOptions) (now : Nat) : CacheEntry :=
  let ttl := jsOrNat opts.ttl cfg.ttl
  let shouldCompress : Bool := decide (getSize value > cfg.compressionThreshold)
  { key := key
    value := if shouldCompress then compress value else value
    hash := hashKey key
    timestamp := now
    ttl := ttl
    expiresAt := now + ttl
    accessCount := 0
    lastAccess := now
    compressed := shouldCompress
    metadata := opts.metadata }

/-- `set(key, value, options)`: build the entry, compress when the
serialized size strictly exceeds the compression threshold, then place the
entry in the memory tier when `size < maxMemorySize` (running the memory
eviction check) and in the disk tier otherwise (running the disk eviction
check).  The entry object the JavaScript method returns is not used by any
caller inside the component, so the model returns the updated state. -/
def set (cfg : CacheConfig) (st : CacheState) (key : String) (value : JsValue)
    (opts : SetOptions) (now : Nat) : CacheState :=
  let hash := hashKey key
  let size := getSize value
  let shouldCompress : Bool := decide (size > cfg.compressionThreshold)
  let entry : CacheEntry := setEntry cfg key value opts now
  let stats' :=
    if shouldCompress then
      { st.stats with compression := st.stats.compression + 1 }
    else st.stats
  if size < cfg.maxMemorySize then
    checkMemoryEviction cfg
      { st with memoryCache := mapSet st.memoryCache hash entry, stats := stats' }
  else
    checkDiskEviction cfg
      { st with diskCache := mapSet st.diskCache hash entry, stats := stats' }

/-- The shared miss tail of `get`: `this.stats.misses++; return null`. -/
def missResult (st : CacheState) : Option JsValue × CacheState :=
  (none, { st with stats := { st.stats with misses := st.stats.misses + 1 } })

/-- The disk-tier half of `get`: on a live disk hit, decompress, re-insert
through `set(key, value, { ttl: this.ttl })` (the code comment calls this a
promotion to the memory cache) and count a hit; an expired disk entry is
deleted and the lookup falls through to a miss. -/
def diskLookup (cfg : CacheConfig) (st : CacheState) (key hash : String)
    (now : Nat) : Option JsValue × CacheState :=
  match mapGet st.diskCache hash with
  | some entry =>
      if isExpired entry now then
        missResult { st with diskCache := mapDelete st.diskCache hash }
      else
        let value := decompress entry.value entry.compressed
        let st' := set cfg st key value { ttl := some cfg.ttl } now
        (some value,
         { st' with stats := { st'.stats with hits := st'.stats.hits + 1 } })
  | none => missResult st

/-- `get(key)`: memory tier first.  A live memory hit bumps `accessCount`
and `lastAccess` and returns the stored `entry.value` as-is (no
decompression on this path).  An expired memory entry is deleted and the
lookup falls through to the disk tier. -/
def get (cfg : CacheConfig) (st : CacheState) (key : String) (now : Nat) :
    Option JsValue × CacheState :=
  let hash := hashKey key
  match mapGet st.memoryCache hash with
  | some entry =>
      if isExpired entry now then
        diskLookup cfg { st with memoryCache := mapDelete st.memoryCache hash }
          key hash now
      else
        let entry' :=
          { entry with accessCount := entry.accessCount + 1, lastAccess := now }
        (some entry.value,
         { st with
           memoryCache := mapSet st.memoryCache hash entry',
           stats := { st.stats with hits := st.stats.hits + 1 } })
  | none => diskLookup cfg st key hash now

mutual

/-- One step of the JavaScript whitespace tokenizer `str.split(/\s+/)`
(mutually defined with the separator-skipping state below). -/
def splitWsGo : List Char → List Char → List String
  | [], acc => [String.mk acc.reverse]
  | c :: cs, acc =>
      if c.isWhitespace then String.mk acc.reverse :: splitWsSkip cs
      else splitWsGo cs (c :: acc)

/-- Separator-skipping state of the whitespace tokenizer. -/
def splitWsSkip : List Char → List String
  | [] => [String.mk []]
  | c :: cs => if c.isWhitespace then splitWsSkip cs else splitWsGo cs [c]

end

/-- `str.split(/\s+/)`: split on maximal runs of whitespace, keeping the
(possibly empty) fragments before the first and after the last run, and
producing `[""]` on the empty string. -/
def splitWs (s : String) : List String := splitWsGo s.data []

/-- `str.toLowerCase()`: character-wise lower-casing. -/
def jsToLowerCase (s : String) : String := String.mk (s.data.map Char.toLower)

/-- `calculateSimilarity(str1, str2)`: Jaccard index of the deduplicated
lower-cased whitespace-token sets (`new Set` only matters through the
cardinalities of the intersection and the union).  The quotient
`intersection.size / union.size` is written with `mkRat`, which builds the
same rational as `(intersection.size : ℚ) / (union.size : ℚ)` (see
`calculateSimilarity_as_div`). -/
def calculateSimilarity (str1 str2 : String) : ℚ :=
  let tokens1 := (splitWs (jsToLowerCase str1)).dedup
  let tokens2 := (splitWs (jsToLowerCase str2)).dedup
  let inter := tokens1.filter fun x => tokens2.contains x
  let union := (tokens1 ++ tokens2).dedup
  mkRat inter.length union.length

/-- The similarity value is the literal division of the two set sizes. -/
theorem calculateSimilarity_as_div (str1 str2 : String) :
    calculateSimilarity str1 str2 =
      ((((splitWs (jsToLowerCase str1)).dedup.filter fun x =>
          (splitWs (jsToLowerCase str2)).dedup.contains x).length : ℚ) /
        ((((splitWs (jsToLowerCase str1)).dedup ++
          (splitWs (jsToLowerCase str2)).dedup).dedup).length : ℚ)) := by
  simp [calculateSimilarity, Rat.mkRat_eq_div]

/-- The accumulator update inside `semanticGet`'s scan: track the entry with
the strictly highest similarity among those reaching the threshold. -/
def simStep (query : String) (threshold : ℚ)
    (best : Option CacheEntry × ℚ) (entry : CacheEntry) :
    Option CacheEntry × ℚ :=
  let similarity := calculateSimilarity query entry.key
  if best.2 < similarity ∧ threshold ≤ similarity then (some entry, similarity)
  else best

/-- `semanticGet(query, threshold)`: scan the memory tier (expired entries
included), keep the best above-threshold candidate, and return its stored
value and score when that final candidate is itself not expired; the scan
never touches the disk tier and never mutates entries.  (The `queryHash`
the code computes is unused and omitted.) -/
def semanticGet (st : CacheState) (query : String) (threshold : ℚ)
    (now : Nat) : Option (JsValue × ℚ) × CacheState :=
  let r := st.memoryCache.foldl (fun b p => simStep query threshold b p.2)
    (none, 0)
  match r.1 with
  | some bestMatch =>
      if isExpired bestMatch now then (none, st)
      else
        (some (bestMatch.value, r.2),
         { st with stats := { st.stats with hits := st.stats.hits + 1 } })
  | none => (none, st)

/-- `invalidateByPattern(pattern)`: delete from both tiers every entry whose
original key the compiled regular expression accepts.  The regular
expression engine is external; the compiled `RegExp.prototype.test` is
modelled as a boolean predicate on keys. -/
def invalidateByPattern (st : CacheState) (patTest : String → Bool) :
    CacheState :=
  { st with
    memoryCache := st.memoryCache.filter fun p => ! patTest p.2.key,
    diskCache := st.diskCache.filter fun p => ! patTest p.2.key }

/-- `invalidate(key, options)`: the hash of `key` is computed first in all
cases (throwing on `null`), then either the pattern branch or the
two-tier single-key deletion runs.  `options.pattern` present models a
truthy pattern string. -/
def invalidate (st : CacheState) (key : Option String)
    (pattern : Option (String → Bool)) : Except JsError CacheState :=
  match hashKeyNullable key with
  | .error e => .error e
  | .ok hash =>
      match pattern with
      | some patTest => .ok (invalidateByPattern st patTest)
      | none =>
          .ok { st with
                memoryCache := mapDelete st.memoryCache hash,
                diskCache := mapDelete st.diskCache hash }

/-- `clear()`. -/
def clear (_st : CacheState) : CacheState := emptyState

/-- The record returned by `getStats()`.  The code formats `hitRate` with
`(hits / total * 100).toFixed(2)`, a two-decimal percentage string; the
model keeps the numeric value being formatted. -/
structure StatsReport where
  hits : Nat
  misses : Nat
  hitRate : ℚ
  compressionCount : Nat
  evictionCount : Nat
  memoryEntries : Nat
  diskEntries : Nat
  memorySize : Nat
  diskSize : Nat
deriving DecidableEq

/-- `getStats()`. -/
def getStats (st : CacheState) : StatsReport :=
  let totalRequests := st.stats.hits + st.stats.misses
  { hits := st.stats.hits
    misses := st.stats.misses
    hitRate :=
      if totalRequests > 0 then
        ((st.stats.hits : ℚ) / (totalRequests : ℚ)) * 100
      else 0
    compressionCount := st.stats.compression
    evictionCount := st.stats.evictions
    memoryEntries := st.memoryCache.length
    diskEntries := st.diskCache.length
    memorySize := getMemorySizeUsage st
    diskSize := getDiskSizeUsage st }

/-- RegExp test for the pattern `userA.*` of the pattern-invalidation
scenario: an unanchored match, i.e. the key contains `userA` as a
substring (`.*` then matches the, possibly empty, rest). -/
def startsWithChars : List Char → List Char → Bool
  | [], _ => true
  | _ :: _, [] => false
  | n :: ns, h :: hs => n == h && startsWithChars ns hs

/-- Substring occurrence test over character lists (used to model the
unanchored `RegExp.prototype.test`). -/
def containsChars (needle : List Char) : List Char → Bool
  | [] => needle.isEmpty
  | c :: cs => startsWithChars needle (c :: cs) || containsChars needle cs

/-- The compiled `new RegExp('userA.*').test` predicate. -/
def matchesUserA (s : String) : Bool := containsChars "userA".data s.data

/-! Basic facts about the modelled primitives. -/

theorem compress_length (v : JsValue) : (compress v).length = v.length + 1 := rfl

theorem compress_ne (v : JsValue) : compress v ≠ v := by
  intro h
  have h2 : (compress v).length = v.length := by rw [h]
  rw [compress_length] at h2
  omega

theorem decompress_compress (v : JsValue) : decompress (compress v) true = v := rfl

theorem hashKey_inj (a b : String) (h : hashKey a = hashKey b) : a = b := by
  have h2 : '#' :: a.data = '#' :: b.data := congrArg String.data h
  have h3 : a.data = b.data := by injection h2
  cases a
  cases b
  exact congrArg String.mk h3

theorem hashKey_eq_iff (a b : String) : hashKey a = hashKey b ↔ a = b :=
  ⟨hashKey_inj a b, fun h => by rw [h]⟩

theorem sizeUsage_nil : sizeUsage [] = 0 := rfl

theorem sizeUsage_cons (k : String) (e : CacheEntry) (rest : EMap) :
    sizeUsage ((k, e) :: rest) = getSize e.value + sizeUsage rest := by
  simp [sizeUsage]

theorem mapGet_mapDelete_self (m : EMap) (k : String) :
    mapGet (mapDelete m k) k = none := by
  induction m with
  | nil => rfl
  | cons p rest ih =>
      obtain ⟨k', e⟩ := p
      by_cases h : k' = k
      · simp [mapDelete, h, ih]
      · simp [mapDelete, mapGet, h, ih]

theorem mapGet_mapDelete_ne (m : EMap) (k h : String) (hne : h ≠ k) :
    mapGet (mapDelete m k) h = mapGet m h := by
  induction m with
  | nil => rfl
  | cons p rest ih =>
      obtain ⟨k', e⟩ := p
      simp only [mapDelete, mapGet]
      by_cases hk : k' = k
      · rw [if_pos hk, ih, if_neg fun hh => hne (hk ▸ hh).symm]
      · rw [if_neg hk]
        simp only [mapGet]
        by_cases hh : k' = h
        · rw [if_pos hh, if_pos hh]
        · rw [if_neg hh, if_neg hh, ih]

theorem mapSet_ne_nil (m : EMap) (k : String) (e : CacheEntry) :
    mapSet m k e ≠ [] := by
  cases m with
  | nil => simp [mapSet]
  | cons p rest =>
      obtain ⟨k', e'⟩ := p
      simp only [mapSet]
      split <;> simp

theorem minByLastAccess_cons_isSome (e : CacheEntry) (es : List CacheEntry) :
    ∃ m, minByLastAccess (e :: es) = some m := by
  rcases h : minByLastAccess es with _ | m
  · exact ⟨e, by simp [minByLastAccess, h]⟩
  · by_cases hc : e.lastAccess ≤ m.lastAccess
    · exact ⟨e, by simp [minByLastAccess, h, hc]⟩
    · exact ⟨m, by simp [minByLastAccess, h, hc]⟩

theorem checkMemoryEviction_of_le (cfg : CacheConfig) (st : CacheState)
    (h : ¬ sizeUsage st.memoryCache > cfg.maxMemorySize) :
    checkMemoryEviction cfg st = st := by
  simp [checkMemoryEviction, h]

theorem checkDiskEviction_of_le (cfg : CacheConfig) (st : CacheState)
    (h : ¬ sizeUsage st.diskCache > cfg.maxDiskSize) :
    checkDiskEviction cfg st = st := by
  simp [checkDiskEviction, h]

theorem checkMemoryEviction_diskCache (cfg : CacheConfig) (st : CacheState) :
    (checkMemoryEviction cfg st).diskCache = st.diskCache := by
  simp only [checkMemoryEviction]
  split
  · split <;> rfl
  · rfl

theorem checkDiskEviction_memoryCache (cfg : CacheConfig) (st : CacheState) :
    (checkDiskEviction cfg st).memoryCache = st.memoryCache := by
  simp only [checkDiskEviction]
  split
  · split <;> rfl
  · rfl

theorem jsOrNat_some_self (d : Nat) : jsOrNat (some d) d = d := by
  simp [jsOrNat]

/-! Concrete configurations and scenario states used by the claim
theorems.  Field values stand for constructor options; where a scenario
needs compression (or needs to avoid it) the threshold is set accordingly. -/

/-- Configuration with a tiny compression threshold (2 bytes), so that small
values already trigger compression. -/
def cfgTiny : CacheConfig :=
  { maxMemorySize := 100, maxDiskSize := 1000, compressionThreshold := 2,
    ttl := 1000, semanticThreshold := 85 / 100 }

/-- Configuration with a 100-byte memory budget and compression disabled in
practice (threshold far above every value used). -/
def cfgBudget100 : CacheConfig :=
  { maxMemorySize := 100, maxDiskSize := 1000000,
    compressionThreshold := 1000, ttl := 1000000,
    semanticThreshold := 85 / 100 }

/-- Configuration with a 10-byte memory budget, so that modest values are
placed in the disk tier. -/
def cfgMem10 : CacheConfig :=
  { maxMemorySize := 10, maxDiskSize := 1000, compressionThreshold := 1000,
    ttl := 1000, semanticThreshold := 85 / 100 }

/-- Roomy configuration for the TTL / statistics / invalidation scenarios. -/
def cfgBasic : CacheConfig :=
  { maxMemorySize := 1000, maxDiskSize := 1000, compressionThreshold := 500,
    ttl := 1000, semanticThreshold := 85 / 100 }

/-- A 99-byte serialized value. -/
def v99 : JsValue := String.mk (List.replicate 99 'x')

/-- A 14-byte serialized value (above the 10-byte memory budget of
`cfgMem10`). -/
def v14 : JsValue := "0123456789abcd"

/-- State after `set('a', 1-byte)` and `set('b', 99-byte)` under the
100-byte memory budget: total memory usage exactly 100, no eviction yet. -/
def budgetStateAB : CacheState :=
  set cfgBudget100 (set cfgBudget100 emptyState "a" "u" {} 0) "b" v99 {} 1

/-- State after additionally `set('c', 99-byte)`: the over-budget check
evicts only the least-recently-used 1-byte entry, leaving 198 bytes. -/
def budgetStateABC : CacheState := set cfgBudget100 budgetStateAB "c" v99 {} 2

/-- State after `set('k', 14-byte)` under the 10-byte memory budget: the
entry is placed in the disk tier. -/
def diskState : CacheState := set cfgMem10 emptyState "k" v14 {} 0

/-- Memory tier with an expired exact-match entry (key `alpha beta`, TTL 5,
created at 0) and a live partially-matching entry (key `alpha gamma`,
TTL 1000, created at 1). -/
def semState : CacheState :=
  set cfgBasic (set cfgBasic emptyState "alpha beta" "v1" ⟨some 5, none⟩ 0)
    "alpha gamma" "v2" ⟨some 1000, none⟩ 1

/-- The pattern-invalidation scenario state: `set('userA-query', v1);
set('userB-query', v2)`. -/
def userState : CacheState :=
  set cfgBasic (set cfgBasic emptyState "userA-query" "v1" {} 0)
    "userB-query" "v2" {} 1

/-- State reached by one `set` followed by three hits and one miss. -/
def hitMissState : CacheState :=
  let s1 := set cfgBasic emptyState "k" "v" {} 0
  let s2 := (get cfgBasic s1 "k" 1).2
  let s3 := (get cfgBasic s2 "k" 2).2
  let s4 := (get cfgBasic s3 "k" 3).2
  (get cfgBasic s4 "zz" 4).2

/-- State after `set('k', 'v', { ttl: 50 })` at time 0. -/
def ttlState : CacheState := set cfgBasic emptyState "k" "v" ⟨some 50, none⟩ 0

/-- State after `set('k', 3-byte)` under the 10-byte memory budget (memory
tier), then re-`set('k', 14-byte)` (disk tier): the hash stays behind in
the memory tier. -/
def bothTiersState : CacheState :=
  set cfgMem10 (set cfgMem10 emptyState "k" "aaa" {} 0) "k" v14 {} 1

/-- C1, code bug.  The claim (round trip through `set` then `get`,
independent of compression) fails in the code: a value whose serialized
size exceeds the compression threshold is stored compressed even in the
memory tier, and the memory-tier branch of `get` returns `entry.value`
without decompression, so `get` yields the compressed encoding instead of a
value deep-equal to the original.  Evaluated at the failing input: threshold
2, value of size 4. -/
theorem c1_roundtrip_bug :
    (get cfgTiny (set cfgTiny emptyState "k" "abcd" {} 0) "k" 0).1 =
      some (compress "abcd") ∧ compress "abcd" ≠ "abcd" :=
  ⟨by decide, compress_ne "abcd"⟩

/-- C2, counterexample.  With a 100-byte memory budget, inserting values of
sizes 1, 99 and 99 leaves the memory tier holding 198 bytes: the eviction
check removes only one (the least-recently-used, 1-byte) entry per `set`
and does not loop until the tier is back under budget, so the claimed
invariant is violated. -/
theorem c2_counterexample :
    getMemorySizeUsage budgetStateABC = 198 ∧
    cfgBudget100.maxMemorySize = 100 ∧
    getMemorySizeUsage budgetStateABC > cfgBudget100.maxMemorySize := by
  refine ⟨by decide, by decide, by decide⟩

/-- C3, code bug.  An entry placed in the disk tier because its size is at
least `maxMemorySize` is returned by `get`, but the promotion re-inserts it
through `set`, which recomputes the same size and places it in the disk
tier again (despite the code comment `Promote to memory cache`); the hash
never appears in the memory tier and a second `get` re-reads the disk tier. -/
theorem c3_promotion_bug :
    mapHas diskState.memoryCache (hashKey "k") = false ∧
    mapHas diskState.diskCache (hashKey "k") = true ∧
    (get cfgMem10 diskState "k" 1).1 = some v14 ∧
    mapHas (get cfgMem10 diskState "k" 1).2.memoryCache (hashKey "k") = false ∧
    mapHas (get cfgMem10 diskState "k" 1).2.diskCache (hashKey "k") = true ∧
    (get cfgMem10 (get cfgMem10 diskState "k" 1).2 "k" 2).1 = some v14 ∧
    mapHas (get cfgMem10 (get cfgMem10 diskState "k" 1).2 "k" 2).2.memoryCache
      (hashKey "k") = false := by
  refine ⟨by decide, by decide, by decide, by decide, by decide, by decide,
    by decide⟩

/-- C4, counterexample.  `semanticGet` scans expired memory entries too: the
expired entry `alpha beta` (similarity 1 to the query) beats the live entry
`alpha gamma` (similarity 1/3, above the threshold 1/4), and the final
expiry check on the single best candidate then returns absent — although a
live candidate with similarity above the threshold exists, which the claim
says must be returned. -/
theorem c4_counterexample :
    (semanticGet semState "alpha beta" (mkRat 1 4) 10).1 = none ∧
    (∃ p ∈ semState.memoryCache, isExpired p.2 10 = false ∧
      mkRat 1 4 ≤ calculateSimilarity "alpha beta" p.2.key) := by
  refine ⟨by decide, by decide⟩

/-- C6, counterexample.  After exactly 3 hits and 1 miss, the code reports
`hitRate` as the percentage 75 (then formats it as the string `75.00` via
`toFixed(2)`), not as the fraction 0.75 claimed. -/
theorem c6_counterexample :
    (getStats hitMissState).hits = 3 ∧ (getStats hitMissState).misses = 1 ∧
    (getStats hitMissState).hitRate = 75 ∧ (75 : ℚ) ≠ 3 / 4 := by
  have hs : hitMissState.stats = ⟨3, 1, 0, 0⟩ := by decide
  refine ⟨by simp [getStats, hs], by simp [getStats, hs], ?_, by norm_num⟩
  simp only [getStats, hs]
  norm_num

/-- C7, counterexample.  With `ttl: 50` and creation at time 0, `get` at
time exactly 50 (elapsed time equal to T) still returns the value, because
expiry is the strict comparison `now > expiresAt`; the claim says the entry
is absent at elapsed time `>= T`. -/
theorem c7_counterexample :
    (get cfgBasic ttlState "k" 50).1 = some "v" := by decide

/-- C9, counterexample.  Re-setting the key `k` with a value in a different
size class inserts into the disk tier without removing the hash from the
memory tier: after the two `set` calls the same content hash is present in
both tier maps at once. -/
theorem c9_counterexample :
    mapHas bothTiersState.memoryCache (hashKey "k") = true ∧
    mapHas bothTiersState.diskCache (hashKey "k") = true := by
  refine ⟨by decide, by decide⟩

/-! Characterization lemmas for `set` and `get`. -/

theorem set_memory_no_evict (cfg : CacheConfig) (st : CacheState)
    (key : String) (value : JsValue) (opts : SetOptions) (now : Nat)
    (hc : ¬ getSize value > cfg.compressionThreshold)
    (hm : getSize value < cfg.maxMemorySize)
    (hno : ¬ sizeUsage (mapSet st.memoryCache (hashKey key)
        (setEntry cfg key value opts now)) > cfg.maxMemorySize) :
    set cfg st key value opts now =
      { st with memoryCache := (mapSet st.memoryCache (hashKey key)
          (setEntry cfg key value opts now)) } := by
  have hcb : decide (getSize value > cfg.compressionThreshold) = false :=
    decide_eq_false hc
  simp only [set, hcb, Bool.false_eq_true, if_false]
  rw [if_pos hm]
  exact checkMemoryEviction_of_le cfg _ hno

theorem set_memory_evict (cfg : CacheConfig) (st : CacheState)
    (key : String) (value : JsValue) (opts : SetOptions) (now : Nat)
    (hc : ¬ getSize value > cfg.compressionThreshold)
    (hm : getSize value < cfg.maxMemorySize)
    (hover : sizeUsage (mapSet st.memoryCache (hashKey key)
        (setEntry cfg key value opts now)) > cfg.maxMemorySize) :
    ∃ e, minByLastAccess ((mapSet st.memoryCache (hashKey key)
        (setEntry cfg key value opts now)).map Prod.snd) = some e ∧
      set cfg st key value opts now =
        { st with
          memoryCache := (mapDelete (mapSet st.memoryCache (hashKey key)
            (setEntry cfg key value opts now)) e.hash),
          stats := { st.stats with evictions := st.stats.evictions + 1 } } := by
  obtain ⟨e, he⟩ : ∃ m, minByLastAccess ((mapSet st.memoryCache (hashKey key)
      (setEntry cfg key value opts now)).map Prod.snd) = some m := by
    rcases hms : mapSet st.memoryCache (hashKey key)
        (setEntry cfg key value opts now) with _ | ⟨p, rest⟩
    · exact absurd hms (mapSet_ne_nil st.memoryCache (hashKey key)
        (setEntry cfg key value opts now))
    · rw [List.map_cons]
      exact minByLastAccess_cons_isSome p.2 (rest.map Prod.snd)
  refine ⟨e, he, ?_⟩
  have hcb : decide (getSize value > cfg.compressionThreshold) = false :=
    decide_eq_false hc
  simp only [set, hcb, Bool.false_eq_true, if_false]
  rw [if_pos hm]
  simp only [checkMemoryEviction]
  rw [if_pos hover, he]

theorem get_memory_hit (cfg : CacheConfig) (st : CacheState) (key : String)
    (now : Nat) (entry : CacheEntry)
    (hfound : mapGet st.memoryCache (hashKey key) = some entry)
    (hlive : isExpired entry now = false) :
    get cfg st key now =
      (some entry.value,
       { st with
         memoryCache := (mapSet st.memoryCache (hashKey key)
           { entry with accessCount := entry.accessCount + 1,
                        lastAccess := now }),
         stats := { st.stats with hits := st.stats.hits + 1 } }) := by
  simp only [get, hfound, hlive, Bool.false_eq_true, if_false]

/-- C5, code bug.  The repository's own example code calls
`invalidate(null, { pattern: ... })`, and the claim requires pattern mode to
ignore the key; but `invalidate` computes `hashKey(key)` before looking at
the pattern and Node's `crypto` hash update throws a `TypeError` on `null`,
so the call fails and removes nothing — while with any string key the
pattern branch behaves exactly as claimed (only the matching `userA-query`
entry is removed and `get('userB-query')` still returns `v2`). -/
theorem c5_null_pattern_bug :
    invalidate userState none (some matchesUserA) =
      Except.error JsError.typeError ∧
    mapHas userState.memoryCache (hashKey "userA-query") = true ∧
    (get cfgBasic userState "userB-query" 2).1 = some "v2" ∧
    (∃ st', invalidate userState (some "ignored") (some matchesUserA) =
        Except.ok st' ∧
      mapHas st'.memoryCache (hashKey "userA-query") = false ∧
      mapHas st'.diskCache (hashKey "userA-query") = false ∧
      (get cfgBasic st' "userB-query" 3).1 = some "v2") := by
  exact ⟨rfl, by decide, by decide, ⟨_, rfl, by decide, by decide, by decide⟩⟩

/-- C6, amended.  `hitRate` is a percentage (the code then renders it as a
string with `toFixed(2)`): it is 0 when no requests have been made, and
after exactly 3 hits and 1 miss it is 75 (rendered `75.00`), not 0.75. -/
theorem c6_amended_hitrate :
    (getStats emptyState).hitRate = 0 ∧
    (getStats hitMissState).hits = 3 ∧
    (getStats hitMissState).misses = 1 ∧
    (getStats hitMissState).hitRate = 75 := by
  have hs : hitMissState.stats = ⟨3, 1, 0, 0⟩ := by decide
  refine ⟨by simp [getStats, emptyState], by simp [getStats, hs],
    by simp [getStats, hs], ?_⟩
  simp only [getStats, hs]
  norm_num

/-- C7, amended.  With `set(key, value, { ttl: T })` at time `now0` (T
nonzero, value small enough to stay uncompressed and in the memory tier),
`get(key)` returns the value at any time `now <= now0 + T` — elapsed time
up to and including T — and returns absent at any time `now > now0 + T`:
expiry is the strict comparison `now > expiresAt`, so the boundary instant
`now = now0 + T` still hits. -/
theorem c7_amended_ttl (cfg : CacheConfig) (key : String) (value : JsValue)
    (T now0 now : Nat) (hT : T ≠ 0)
    (hc : ¬ getSize value > cfg.compressionThreshold)
    (hm : getSize value < cfg.maxMemorySize) :
    (now ≤ now0 + T →
      (get cfg (set cfg emptyState key value ⟨some T, none⟩ now0) key now).1 =
        some value) ∧
    (now0 + T < now →
      (get cfg (set cfg emptyState key value ⟨some T, none⟩ now0) key now).1 =
        none) := by
  have hcb : decide (getSize value > cfg.compressionThreshold) = false :=
    decide_eq_false hc
  have httl : jsOrNat (some T) cfg.ttl = T := by simp [jsOrNat, hT]
  have hval : (setEntry cfg key value ⟨some T, none⟩ now0).value = value := by
    simp [setEntry, hcb]
  have hexp : (setEntry cfg key value ⟨some T, none⟩ now0).expiresAt =
      now0 + T := by
    simp [setEntry, httl]
  have hno : ¬ sizeUsage (mapSet emptyState.memoryCache (hashKey key)
      (setEntry cfg key value ⟨some T, none⟩ now0)) > cfg.maxMemorySize := by
    simp only [emptyState, mapSet, sizeUsage_cons, sizeUsage_nil, hval]
    omega
  have hset := set_memory_no_evict cfg emptyState key value ⟨some T, none⟩
    now0 hc hm hno
  constructor
  · intro hle
    have hlive : isExpired (setEntry cfg key value ⟨some T, none⟩ now0) now =
        false := by
      simp only [isExpired, hexp]
      simpa using Nat.not_lt.mpr hle
    rw [hset]
    simp [get, emptyState, mapSet, mapGet, hlive, hval]
  · intro hlt
    have hdead : isExpired (setEntry cfg key value ⟨some T, none⟩ now0) now =
        true := by
      simp only [isExpired, hexp]
      simpa using hlt
    rw [hset]
    simp [get, emptyState, mapSet, mapGet, hdead, diskLookup, mapDelete,
      missResult]

/-- C7, witness.  The amended theorem applied at T = 50, creation time 0:
a hit at the boundary time 50 would also go through, and here it is applied
at time 20 (hit) and time 51 (absent). -/
theorem c7_amended_ttl_witness :
    (get cfgBasic (set cfgBasic emptyState "k" "v" ⟨some 50, none⟩ 0)
      "k" 20).1 = some "v" ∧
    (get cfgBasic (set cfgBasic emptyState "k" "v" ⟨some 50, none⟩ 0)
      "k" 51).1 = none :=
  ⟨(c7_amended_ttl cfgBasic "k" "v" 50 0 20 (by decide) (by decide)
      (by decide)).1 (by omega),
   (c7_amended_ttl cfgBasic "k" "v" 50 0 51 (by decide) (by decide)
      (by decide)).2 (by omega)⟩

/-- C9, amended.  A single `set` call inserts into exactly the tier chosen
by the size comparison and leaves the other tier map completely unchanged —
in particular it does not remove the content hash from the other tier, which
is what allows the counterexample's double residency. -/
theorem c9_amended_single_tier (cfg : CacheConfig) (st : CacheState)
    (key : String) (value : JsValue) (opts : SetOptions) (now : Nat) :
    (getSize value < cfg.maxMemorySize →
      (set cfg st key value opts now).diskCache = st.diskCache) ∧
    (¬ getSize value < cfg.maxMemorySize →
      (set cfg st key value opts now).memoryCache = st.memoryCache) := by
  constructor
  · intro h
    simp only [set]
    rw [if_pos h]
    simp [checkMemoryEviction_diskCache]
  · intro h
    simp only [set]
    rw [if_neg h]
    simp [checkDiskEviction_memoryCache]

/-- C9, witness.  The amended theorem applied to the second `set` of the
counterexample scenario: the 14-byte value goes to the disk tier and the
memory tier (still holding the hash of `k`) is untouched. -/
theorem c9_amended_single_tier_witness :
    (set cfgMem10 (set cfgMem10 emptyState "k" "aaa" {} 0) "k" v14 {}
      1).memoryCache = (set cfgMem10 emptyState "k" "aaa" {} 0).memoryCache :=
  (c9_amended_single_tier cfgMem10 (set cfgMem10 emptyState "k" "aaa" {} 0)
    "k" v14 {} 1).2 (by decide)

theorem getSize_compress (v : JsValue) : getSize (compress v) = getSize v + 1 :=
  rfl

theorem minByTimestamp_cons_isSome (e : CacheEntry) (es : List CacheEntry) :
    ∃ m, minByTimestamp (e :: es) = some m := by
  rcases h : minByTimestamp es with _ | m
  · exact ⟨e, by simp [minByTimestamp, h]⟩
  · by_cases hc : e.timestamp ≤ m.timestamp
    · exact ⟨e, by simp [minByTimestamp, h, hc]⟩
    · exact ⟨m, by simp [minByTimestamp, h, hc]⟩

theorem mapGet_mapSet_self (m : EMap) (k : String) (e : CacheEntry) :
    mapGet (mapSet m k e) k = some e := by
  induction m with
  | nil => simp [mapSet, mapGet]
  | cons p rest ih =>
      obtain ⟨k', e'⟩ := p
      by_cases h : k' = k
      · simp [mapSet, mapGet, h]
      · simp [mapSet, mapGet, h, ih]

theorem set_memory_over_state (cfg : CacheConfig) (st : CacheState)
    (key : String) (value : JsValue) (opts : SetOptions) (now : Nat)
    (hm : getSize value < cfg.maxMemorySize)
    (hover : sizeUsage (mapSet st.memoryCache (hashKey key)
        (setEntry cfg key value opts now)) > cfg.maxMemorySize) :
    ∃ e, minByLastAccess ((mapSet st.memoryCache (hashKey key)
        (setEntry cfg key value opts now)).map Prod.snd) = some e ∧
      (set cfg st key value opts now).memoryCache =
        mapDelete (mapSet st.memoryCache (hashKey key)
          (setEntry cfg key value opts now)) e.hash ∧
      (set cfg st key value opts now).stats.evictions =
        st.stats.evictions + 1 := by
  obtain ⟨e, he⟩ : ∃ m, minByLastAccess ((mapSet st.memoryCache (hashKey key)
      (setEntry cfg key value opts now)).map Prod.snd) = some m := by
    rcases hms : mapSet st.memoryCache (hashKey key)
        (setEntry cfg key value opts now) with _ | ⟨p, rest⟩
    · exact absurd hms (mapSet_ne_nil st.memoryCache (hashKey key)
        (setEntry cfg key value opts now))
    · rw [List.map_cons]
      exact minByLastAccess_cons_isSome p.2 (rest.map Prod.snd)
  refine ⟨e, he, ?_, ?_⟩
  · simp only [set]
    rw [if_pos hm]
    simp only [checkMemoryEviction]
    rw [if_pos hover, he]
  · cases hb : decide (getSize value > cfg.compressionThreshold) with
    | false =>
        simp only [set, hb, Bool.false_eq_true, if_false]
        rw [if_pos hm]
        simp only [checkMemoryEviction]
        rw [if_pos hover, he]
    | true =>
        simp only [set, hb, eq_self_iff_true, if_true]
        rw [if_pos hm]
        simp only [checkMemoryEviction]
        rw [if_pos hover, he]

theorem set_disk_over_state (cfg : CacheConfig) (st : CacheState)
    (key : String) (value : JsValue) (opts : SetOptions) (now : Nat)
    (hm : ¬ getSize value < cfg.maxMemorySize)
    (hover : sizeUsage (mapSet st.diskCache (hashKey key)
        (setEntry cfg key value opts now)) > cfg.maxDiskSize) :
    ∃ e, minByTimestamp ((mapSet st.diskCache (hashKey key)
        (setEntry cfg key value opts now)).map Prod.snd) = some e ∧
      (set cfg st key value opts now).diskCache =
        mapDelete (mapSet st.diskCache (hashKey key)
          (setEntry cfg key value opts now)) e.hash ∧
      (set cfg st key value opts now).stats.evictions =
        st.stats.evictions + 1 := by
  obtain ⟨e, he⟩ : ∃ m, minByTimestamp ((mapSet st.diskCache (hashKey key)
      (setEntry cfg key value opts now)).map Prod.snd) = some m := by
    rcases hms : mapSet st.diskCache (hashKey key)
        (setEntry cfg key value opts now) with _ | ⟨p, rest⟩
    · exact absurd hms (mapSet_ne_nil st.diskCache (hashKey key)
        (setEntry cfg key value opts now))
    · rw [List.map_cons]
      exact minByTimestamp_cons_isSome p.2 (rest.map Prod.snd)
  refine ⟨e, he, ?_, ?_⟩
  · simp only [set]
    rw [if_neg hm]
    simp only [checkDiskEviction]
    rw [if_pos hover, he]
  · cases hb : decide (getSize value > cfg.compressionThreshold) with
    | false =>
        simp only [set, hb, Bool.false_eq_true, if_false]
        rw [if_neg hm]
        simp only [checkDiskEviction]
        rw [if_pos hover, he]
    | true =>
        simp only [set, hb, eq_self_iff_true, if_true]
        rw [if_neg hm]
        simp only [checkDiskEviction]
        rw [if_pos hover, he]

theorem set_disk_no_evict_proj (cfg : CacheConfig) (st : CacheState)
    (key : String) (value : JsValue) (opts : SetOptions) (now : Nat)
    (hm : ¬ getSize value < cfg.maxMemorySize)
    (hno : ¬ sizeUsage (mapSet st.diskCache (hashKey key)
        (setEntry cfg key value opts now)) > cfg.maxDiskSize) :
    (set cfg st key value opts now).diskCache =
      mapSet st.diskCache (hashKey key) (setEntry cfg key value opts now) ∧
    (set cfg st key value opts now).memoryCache = st.memoryCache := by
  constructor
  · simp only [set]
    rw [if_neg hm, checkDiskEviction_of_le cfg _ hno]
  · simp only [set]
    rw [if_neg hm, checkDiskEviction_of_le cfg _ hno]

/-- Configuration with a 5-byte memory budget and a 20-byte disk budget,
used to exercise disk-tier eviction. -/
def cfgDisk : CacheConfig :=
  { maxMemorySize := 5, maxDiskSize := 20, compressionThreshold := 1000,
    ttl := 1000, semanticThreshold := 85 / 100 }

/-- State with one 14-byte entry resident in the disk tier of `cfgDisk`. -/
def diskStateA : CacheState := set cfgDisk emptyState "a" v14 {} 0

/-- C2, amended.  When an insertion pushes the chosen tier's summed stored
sizes above that tier's budget, the `set` call removes exactly one entry —
memory tier: the first entry in insertion order with minimal `lastAccess`;
disk tier: the first entry with minimal creation `timestamp` — and
increments the eviction counter; every other hash is left as inserted.  The
eviction check does not loop, so the tier can stay above budget after the
call (the counterexample shows 198 bytes against a 100-byte memory
budget). -/
theorem c2_amended_single_eviction (cfg : CacheConfig) (st : CacheState)
    (key : String) (value : JsValue) (opts : SetOptions) (now : Nat) :
    (getSize value < cfg.maxMemorySize →
      sizeUsage (mapSet st.memoryCache (hashKey key)
        (setEntry cfg key value opts now)) > cfg.maxMemorySize →
      ∃ e, minByLastAccess ((mapSet st.memoryCache (hashKey key)
          (setEntry cfg key value opts now)).map Prod.snd) = some e ∧
        (set cfg st key value opts now).stats.evictions =
          st.stats.evictions + 1 ∧
        mapGet (set cfg st key value opts now).memoryCache e.hash = none ∧
        (∀ h, h ≠ e.hash →
          mapGet (set cfg st key value opts now).memoryCache h =
            mapGet (mapSet st.memoryCache (hashKey key)
              (setEntry cfg key value opts now)) h)) ∧
    (¬ getSize value < cfg.maxMemorySize →
      sizeUsage (mapSet st.diskCache (hashKey key)
        (setEntry cfg key value opts now)) > cfg.maxDiskSize →
      ∃ e, minByTimestamp ((mapSet st.diskCache (hashKey key)
          (setEntry cfg key value opts now)).map Prod.snd) = some e ∧
        (set cfg st key value opts now).stats.evictions =
          st.stats.evictions + 1 ∧
        mapGet (set cfg st key value opts now).diskCache e.hash = none ∧
        (∀ h, h ≠ e.hash →
          mapGet (set cfg st key value opts now).diskCache h =
            mapGet (mapSet st.diskCache (hashKey key)
              (setEntry cfg key value opts now)) h)) := by
  constructor
  · intro hm hover
    obtain ⟨e, hmin, hmc, hev⟩ :=
      set_memory_over_state cfg st key value opts now hm hover
    refine ⟨e, hmin, hev, ?_, ?_⟩
    · rw [hmc]
      exact mapGet_mapDelete_self _ _
    · intro h hne
      rw [hmc]
      exact mapGet_mapDelete_ne _ _ _ hne
  · intro hm hover
    obtain ⟨e, hmin, hdc, hev⟩ :=
      set_disk_over_state cfg st key value opts now hm hover
    refine ⟨e, hmin, hev, ?_, ?_⟩
    · rw [hdc]
      exact mapGet_mapDelete_self _ _
    · intro h hne
      rw [hdc]
      exact mapGet_mapDelete_ne _ _ _ hne

/-- C2, witness for the amended theorem, covering both tiers: the third
`set` of the counterexample scenario (memory budget 100; sizes 1 and 99
resident; 99 inserted) evicts exactly one memory entry, and under `cfgDisk`
(disk budget 20; one 14-byte disk entry resident; 14 bytes inserted) the
`set` evicts exactly one disk entry; both bump the eviction counter. -/
theorem c2_amended_single_eviction_witness :
    (∃ e, minByLastAccess ((mapSet budgetStateAB.memoryCache (hashKey "c")
        (setEntry cfgBudget100 "c" v99 {} 2)).map Prod.snd) = some e ∧
      (set cfgBudget100 budgetStateAB "c" v99 {} 2).stats.evictions =
        budgetStateAB.stats.evictions + 1 ∧
      mapGet (set cfgBudget100 budgetStateAB "c" v99 {} 2).memoryCache
        e.hash = none ∧
      (∀ h, h ≠ e.hash →
        mapGet (set cfgBudget100 budgetStateAB "c" v99 {} 2).memoryCache h =
          mapGet (mapSet budgetStateAB.memoryCache (hashKey "c")
            (setEntry cfgBudget100 "c" v99 {} 2)) h)) ∧
    (∃ e, minByTimestamp ((mapSet diskStateA.diskCache (hashKey "b")
        (setEntry cfgDisk "b" v14 {} 1)).map Prod.snd) = some e ∧
      (set cfgDisk diskStateA "b" v14 {} 1).stats.evictions =
        diskStateA.stats.evictions + 1 ∧
      mapGet (set cfgDisk diskStateA "b" v14 {} 1).diskCache e.hash = none ∧
      (∀ h, h ≠ e.hash →
        mapGet (set cfgDisk diskStateA "b" v14 {} 1).diskCache h =
          mapGet (mapSet diskStateA.diskCache (hashKey "b")
            (setEntry cfgDisk "b" v14 {} 1)) h)) :=
  ⟨(c2_amended_single_eviction cfgBudget100 budgetStateAB "c" v99 {} 2).1
      (by decide) (by decide),
   (c2_amended_single_eviction cfgDisk diskStateA "b" v14 {} 1).2
      (by decide) (by decide)⟩

/-- C10, confirmed.  A `get` that hits a live disk-tier entry re-inserts it
through `set(key, value, { ttl: this.ttl })`: the re-created entry carries
the store's default TTL and fresh metadata — `expiresAt` becomes the
current time plus the default TTL (any shorter remaining TTL of the
original entry is discarded) and `accessCount` restarts at 0.  Stated in
the size class every code-created disk entry belongs to (raw size at least
`maxMemorySize`, cf. C3): the re-insertion replaces the entry in the disk
tier (surviving the disk eviction check when the tier stays within budget)
and the memory tier is untouched. -/
theorem c10_promotion_fresh (cfg : CacheConfig) (st : CacheState)
    (key : String) (e : CacheEntry) (now : Nat)
    (hmem : mapGet st.memoryCache (hashKey key) = none)
    (hdisk : mapGet st.diskCache (hashKey key) = some e)
    (hlive : isExpired e now = false)
    (hbig : ¬ getSize (decompress e.value e.compressed) < cfg.maxMemorySize)
    (hfit : ¬ sizeUsage (mapSet st.diskCache (hashKey key)
        (setEntry cfg key (decompress e.value e.compressed)
          { ttl := some cfg.ttl } now)) > cfg.maxDiskSize) :
    ∃ e', mapGet ((get cfg st key now).2).diskCache (hashKey key) =
        some e' ∧
      e'.ttl = cfg.ttl ∧ e'.expiresAt = now + cfg.ttl ∧
      e'.accessCount = 0 ∧ e'.lastAccess = now ∧ e'.timestamp = now ∧
      e'.metadata = none ∧
      ((get cfg st key now).2).memoryCache = st.memoryCache := by
  obtain ⟨hdc, hmc⟩ := set_disk_no_evict_proj cfg st key
    (decompress e.value e.compressed) { ttl := some cfg.ttl } now hbig hfit
  refine ⟨setEntry cfg key (decompress e.value e.compressed)
    { ttl := some cfg.ttl } now, ?_, ?_, ?_, ?_, ?_, ?_, ?_, ?_⟩
  · simp only [get, hmem, diskLookup, hdisk, hlive, Bool.false_eq_true,
      if_false]
    rw [hdc]
    exact mapGet_mapSet_self _ _ _
  · simp [setEntry, jsOrNat_some_self]
  · simp [setEntry, jsOrNat_some_self]
  · simp [setEntry]
  · simp [setEntry]
  · simp [setEntry]
  · simp [setEntry]
  · simp only [get, hmem, diskLookup, hdisk, hlive, Bool.false_eq_true,
      if_false]
    rw [hmc]

/-- C10, witness: a 14-byte value stored with `ttl: 50` at time 0 under
`cfgMem10` lands in the disk tier (`expiresAt = 50`); a `get` at time 30
hits it and the re-inserted disk entry has `expiresAt = 1030` (time 30 plus
the default TTL 1000) and `accessCount = 0`, while the memory tier stays
empty. -/
theorem c10_promotion_fresh_witness :
    ∃ e', mapGet ((get cfgMem10 (set cfgMem10 emptyState "k" v14
        ⟨some 50, none⟩ 0) "k" 30).2).diskCache (hashKey "k") = some e' ∧
      e'.ttl = cfgMem10.ttl ∧ e'.expiresAt = 30 + cfgMem10.ttl ∧
      e'.accessCount = 0 ∧ e'.lastAccess = 30 ∧ e'.timestamp = 30 ∧
      e'.metadata = none ∧
      ((get cfgMem10 (set cfgMem10 emptyState "k" v14 ⟨some 50, none⟩ 0)
        "k" 30).2).memoryCache =
        (set cfgMem10 emptyState "k" v14 ⟨some 50, none⟩ 0).memoryCache :=
  c10_promotion_fresh cfgMem10
    (set cfgMem10 emptyState "k" v14 ⟨some 50, none⟩ 0) "k"
    (setEntry cfgMem10 "k" v14 ⟨some 50, none⟩ 0) 30
    (by decide) (by decide) (by decide) (by decide) (by decide)

/-! Evaluation lemmas for the association-list maps and the LRU minimum. -/

theorem mapSet_cons_self (k : String) (e' e : CacheEntry) (rest : EMap) :
    mapSet ((k, e') :: rest) k e = (k, e) :: rest := by
  simp [mapSet]

theorem mapSet_cons_ne (k' k : String) (e' e : CacheEntry) (rest : EMap)
    (h : k' ≠ k) : mapSet ((k', e') :: rest) k e = (k', e') :: mapSet rest k e := by
  simp [mapSet, h]

theorem mapGet_cons_self (k : String) (e : CacheEntry) (rest : EMap) :
    mapGet ((k, e) :: rest) k = some e := by
  simp [mapGet]

theorem mapGet_cons_ne (k' k : String) (e : CacheEntry) (rest : EMap)
    (h : k' ≠ k) : mapGet ((k', e) :: rest) k = mapGet rest k := by
  simp [mapGet, h]

theorem minByLastAccess_singleton (e : CacheEntry) :
    minByLastAccess [e] = some e := by
  simp [minByLastAccess]

theorem minByLastAccess_cons (e : CacheEntry) (es : List CacheEntry)
    (m : CacheEntry) (h : minByLastAccess es = some m) :
    minByLastAccess (e :: es) =
      if e.lastAccess ≤ m.lastAccess then some e else some m := by
  simp [minByLastAccess, h]

theorem set_memory_evict_min (cfg : CacheConfig) (st : CacheState)
    (key : String) (value : JsValue) (opts : SetOptions) (now : Nat)
    (e : CacheEntry)
    (hc : ¬ getSize value > cfg.compressionThreshold)
    (hm : getSize value < cfg.maxMemorySize)
    (hover : sizeUsage (mapSet st.memoryCache (hashKey key)
        (setEntry cfg key value opts now)) > cfg.maxMemorySize)
    (hmin : minByLastAccess ((mapSet st.memoryCache (hashKey key)
        (setEntry cfg key value opts now)).map Prod.snd) = some e) :
    set cfg st key value opts now =
      { st with
        memoryCache := (mapDelete (mapSet st.memoryCache (hashKey key)
          (setEntry cfg key value opts now)) e.hash),
        stats := { st.stats with evictions := st.stats.evictions + 1 } } := by
  obtain ⟨e2, he2, hst⟩ := set_memory_evict cfg st key value opts now hc hm hover
  have he : e2 = e := by
    have := he2.symm.trans hmin
    injection this
  rw [he] at hst
  exact hst

/-! Field lemmas for the entry literal built by `set`. -/

theorem jsOrNat_none (d : Nat) : jsOrNat none d = d := rfl

theorem setEntry_value_uncompressed (cfg : CacheConfig) (key : String)
    (value : JsValue) (opts : SetOptions) (now : Nat)
    (hc : ¬ getSize value > cfg.compressionThreshold) :
    (setEntry cfg key value opts now).value = value := by
  simp [setEntry, decide_eq_false hc]

theorem setEntry_hash (cfg : CacheConfig) (key : String) (value : JsValue)
    (opts : SetOptions) (now : Nat) :
    (setEntry cfg key value opts now).hash = hashKey key := by
  simp [setEntry]

theorem setEntry_lastAccess (cfg : CacheConfig) (key : String)
    (value : JsValue) (opts : SetOptions) (now : Nat) :
    (setEntry cfg key value opts now).lastAccess = now := by
  simp [setEntry]

theorem setEntry_expiresAt (cfg : CacheConfig) (key : String)
    (value : JsValue) (opts : SetOptions) (now : Nat) :
    (setEntry cfg key value opts now).expiresAt =
      now + jsOrNat opts.ttl cfg.ttl := by
  simp [setEntry]

/-- The C8 scenario pipeline: insert A, B and C in this order, read A back
through `get` (refreshing its `lastAccess`), then insert D. -/
def lruScenario (cfg : CacheConfig) (kA kB kC kD : String)
    (vA vB vC vD : JsValue) (t0 t1 t2 t3 t4 : Nat) : CacheState :=
  set cfg
    (get cfg
      (set cfg (set cfg (set cfg emptyState kA vA {} t0) kB vB {} t1)
        kC vC {} t2)
      kA t3).2
    kD vD {} t4

/-- C8, confirmed.  Insert A, B, C in this order (all uncompressed,
memory-tier resident, no eviction yet), read A back via `get` at a later
time, then insert a D whose size pushes the tier over budget: the entry
evicted is exactly B — the entry with the smallest `lastAccess` — not the
most recently accessed A and not the newer C or D, and the eviction counter
is incremented (to 1).  LRU, not FIFO. -/
theorem c8_lru_eviction (cfg : CacheConfig) (kA kB kC kD : String)
    (vA vB vC vD : JsValue) (t0 t1 t2 t3 t4 : Nat)
    (hAB : kA ≠ kB) (hAC : kA ≠ kC) (hAD : kA ≠ kD)
    (hBC : kB ≠ kC) (hBD : kB ≠ kD) (hCD : kC ≠ kD)
    (hcA : ¬ getSize vA > cfg.compressionThreshold)
    (hcB : ¬ getSize vB > cfg.compressionThreshold)
    (hcC : ¬ getSize vC > cfg.compressionThreshold)
    (hcD : ¬ getSize vD > cfg.compressionThreshold)
    (hmA : getSize vA < cfg.maxMemorySize)
    (hmB : getSize vB < cfg.maxMemorySize)
    (hmC : getSize vC < cfg.maxMemorySize)
    (hmD : getSize vD < cfg.maxMemorySize)
    (hfitAB : getSize vA + getSize vB ≤ cfg.maxMemorySize)
    (hfitABC : getSize vA + getSize vB + getSize vC ≤ cfg.maxMemorySize)
    (hoverD : getSize vA + getSize vB + getSize vC + getSize vD >
      cfg.maxMemorySize)
    (ht01 : t0 < t1) (ht12 : t1 < t2) (ht23 : t2 < t3) (ht34 : t3 < t4)
    (hliveA : t3 ≤ t0 + cfg.ttl) :
    mapHas (lruScenario cfg kA kB kC kD vA vB vC vD t0 t1 t2 t3
      t4).memoryCache (hashKey kB) = false ∧
    mapHas (lruScenario cfg kA kB kC kD vA vB vC vD t0 t1 t2 t3
      t4).memoryCache (hashKey kA) = true ∧
    mapHas (lruScenario cfg kA kB kC kD vA vB vC vD t0 t1 t2 t3
      t4).memoryCache (hashKey kC) = true ∧
    mapHas (lruScenario cfg kA kB kC kD vA vB vC vD t0 t1 t2 t3
      t4).memoryCache (hashKey kD) = true ∧
    (lruScenario cfg kA kB kC kD vA vB vC vD t0 t1 t2 t3 t4).stats.evictions =
      1 := by
  have nAB : hashKey kA ≠ hashKey kB := fun h => hAB (hashKey_inj _ _ h)
  have nAC : hashKey kA ≠ hashKey kC := fun h => hAC (hashKey_inj _ _ h)
  have nAD : hashKey kA ≠ hashKey kD := fun h => hAD (hashKey_inj _ _ h)
  have nBC : hashKey kB ≠ hashKey kC := fun h => hBC (hashKey_inj _ _ h)
  have nBD : hashKey kB ≠ hashKey kD := fun h => hBD (hashKey_inj _ _ h)
  have nCD : hashKey kC ≠ hashKey kD := fun h => hCD (hashKey_inj _ _ h)
  have hnoA : ¬ sizeUsage (mapSet emptyState.memoryCache (hashKey kA)
      (setEntry cfg kA vA {} t0)) > cfg.maxMemorySize := by
    simp only [emptyState, mapSet, sizeUsage_cons, sizeUsage_nil,
      setEntry_value_uncompressed cfg kA vA {} t0 hcA]
    omega
  have h1 : set cfg emptyState kA vA {} t0 =
      (⟨[(hashKey kA, setEntry cfg kA vA {} t0)], [],
        ⟨0, 0, 0, 0⟩⟩ : CacheState) := by
    rw [set_memory_no_evict cfg emptyState kA vA {} t0 hcA hmA hnoA]
    rfl
  have hnoB : ¬ sizeUsage (mapSet [(hashKey kA, setEntry cfg kA vA {} t0)]
      (hashKey kB) (setEntry cfg kB vB {} t1)) > cfg.maxMemorySize := by
    rw [mapSet_cons_ne _ _ _ _ _ nAB]
    simp only [mapSet, sizeUsage_cons, sizeUsage_nil,
      setEntry_value_uncompressed cfg kA vA {} t0 hcA,
      setEntry_value_uncompressed cfg kB vB {} t1 hcB]
    omega
  have h2 : set cfg (⟨[(hashKey kA, setEntry cfg kA vA {} t0)], [],
      ⟨0, 0, 0, 0⟩⟩ : CacheState) kB vB {} t1 =
      (⟨[(hashKey kA, setEntry cfg kA vA {} t0),
        (hashKey kB, setEntry cfg kB vB {} t1)], [],
        ⟨0, 0, 0, 0⟩⟩ : CacheState) := by
    rw [set_memory_no_evict cfg _ kB vB {} t1 hcB hmB hnoB,
      mapSet_cons_ne _ _ _ _ _ nAB]
    rfl
  have hnoC : ¬ sizeUsage (mapSet [(hashKey kA, setEntry cfg kA vA {} t0),
      (hashKey kB, setEntry cfg kB vB {} t1)]
      (hashKey kC) (setEntry cfg kC vC {} t2)) > cfg.maxMemorySize := by
    rw [mapSet_cons_ne _ _ _ _ _ nAC, mapSet_cons_ne _ _ _ _ _ nBC]
    simp only [mapSet, sizeUsage_cons, sizeUsage_nil,
      setEntry_value_uncompressed cfg kA vA {} t0 hcA,
      setEntry_value_uncompressed cfg kB vB {} t1 hcB,
      setEntry_value_uncompressed cfg kC vC {} t2 hcC]
    omega
  have h3 : set cfg (⟨[(hashKey kA, setEntry cfg kA vA {} t0),
      (hashKey kB, setEntry cfg kB vB {} t1)], [],
      ⟨0, 0, 0, 0⟩⟩ : CacheState) kC vC {} t2 =
      (⟨[(hashKey kA, setEntry cfg kA vA {} t0),
        (hashKey kB, setEntry cfg kB vB {} t1),
        (hashKey kC, setEntry cfg kC vC {} t2)], [],
        ⟨0, 0, 0, 0⟩⟩ : CacheState) := by
    rw [set_memory_no_evict cfg _ kC vC {} t2 hcC hmC hnoC,
      mapSet_cons_ne _ _ _ _ _ nAC, mapSet_cons_ne _ _ _ _ _ nBC]
    rfl
  have hexpA : (setEntry cfg kA vA {} t0).expiresAt = t0 + cfg.ttl := by
    rw [setEntry_expiresAt]
    rfl
  have hliveA' : isExpired (setEntry cfg kA vA {} t0) t3 = false := by
    simp only [isExpired, hexpA]
    exact decide_eq_false (by omega)
  have hfoundA : mapGet [(hashKey kA, setEntry cfg kA vA {} t0),
      (hashKey kB, setEntry cfg kB vB {} t1),
      (hashKey kC, setEntry cfg kC vC {} t2)] (hashKey kA) =
      some (setEntry cfg kA vA {} t0) := mapGet_cons_self _ _ _
  have h4 : (get cfg (⟨[(hashKey kA, setEntry cfg kA vA {} t0),
      (hashKey kB, setEntry cfg kB vB {} t1),
      (hashKey kC, setEntry cfg kC vC {} t2)], [],
      ⟨0, 0, 0, 0⟩⟩ : CacheState) kA t3).2 =
      (⟨[(hashKey kA, { setEntry cfg kA vA {} t0 with
          accessCount := (setEntry cfg kA vA {} t0).accessCount + 1,
          lastAccess := t3 }),
        (hashKey kB, setEntry cfg kB vB {} t1),
        (hashKey kC, setEntry cfg kC vC {} t2)], [],
        ⟨1, 0, 0, 0⟩⟩ : CacheState) := by
    rw [get_memory_hit cfg _ kA t3 (setEntry cfg kA vA {} t0) hfoundA hliveA',
      mapSet_cons_self]
  have hmapD : mapSet [(hashKey kA, { setEntry cfg kA vA {} t0 with
      accessCount := (setEntry cfg kA vA {} t0).accessCount + 1,
      lastAccess := t3 }),
      (hashKey kB, setEntry cfg kB vB {} t1),
      (hashKey kC, setEntry cfg kC vC {} t2)] (hashKey kD)
      (setEntry cfg kD vD {} t4) =
      [(hashKey kA, { setEntry cfg kA vA {} t0 with
        accessCount := (setEntry cfg kA vA {} t0).accessCount + 1,
        lastAccess := t3 }),
      (hashKey kB, setEntry cfg kB vB {} t1),
      (hashKey kC, setEntry cfg kC vC {} t2),
      (hashKey kD, setEntry cfg kD vD {} t4)] := by
    rw [mapSet_cons_ne _ _ _ _ _ nAD, mapSet_cons_ne _ _ _ _ _ nBD,
      mapSet_cons_ne _ _ _ _ _ nCD]
    rfl
  have hoverD' : sizeUsage (mapSet [(hashKey kA, { setEntry cfg kA vA {} t0 with
      accessCount := (setEntry cfg kA vA {} t0).accessCount + 1,
      lastAccess := t3 }),
      (hashKey kB, setEntry cfg kB vB {} t1),
      (hashKey kC, setEntry cfg kC vC {} t2)] (hashKey kD)
      (setEntry cfg kD vD {} t4)) > cfg.maxMemorySize := by
    rw [hmapD]
    simp only [sizeUsage_cons, sizeUsage_nil,
      setEntry_value_uncompressed cfg kA vA {} t0 hcA,
      setEntry_value_uncompressed cfg kB vB {} t1 hcB,
      setEntry_value_uncompressed cfg kC vC {} t2 hcC,
      setEntry_value_uncompressed cfg kD vD {} t4 hcD]
    omega
  have mD : minByLastAccess [setEntry cfg kD vD {} t4] =
      some (setEntry cfg kD vD {} t4) := minByLastAccess_singleton _
  have lcCD : (setEntry cfg kC vC {} t2).lastAccess ≤
      (setEntry cfg kD vD {} t4).lastAccess := by
    rw [setEntry_lastAccess, setEntry_lastAccess]
    omega
  have mCD : minByLastAccess [setEntry cfg kC vC {} t2,
      setEntry cfg kD vD {} t4] = some (setEntry cfg kC vC {} t2) := by
    rw [minByLastAccess_cons _ _ _ mD, if_pos lcCD]
  have lcBC : (setEntry cfg kB vB {} t1).lastAccess ≤
      (setEntry cfg kC vC {} t2).lastAccess := by
    rw [setEntry_lastAccess, setEntry_lastAccess]
    omega
  have mBCD : minByLastAccess [setEntry cfg kB vB {} t1,
      setEntry cfg kC vC {} t2, setEntry cfg kD vD {} t4] =
      some (setEntry cfg kB vB {} t1) := by
    rw [minByLastAccess_cons _ _ _ mCD, if_pos lcBC]
  have lcAB : ¬ ({ setEntry cfg kA vA {} t0 with
      accessCount := (setEntry cfg kA vA {} t0).accessCount + 1,
      lastAccess := t3 } : CacheEntry).lastAccess ≤
      (setEntry cfg kB vB {} t1).lastAccess := by
    rw [setEntry_lastAccess]
    simp only
    omega
  have mAll : minByLastAccess [{ setEntry cfg kA vA {} t0 with
      accessCount := (setEntry cfg kA vA {} t0).accessCount + 1,
      lastAccess := t3 },
      setEntry cfg kB vB {} t1, setEntry cfg kC vC {} t2,
      setEntry cfg kD vD {} t4] = some (setEntry cfg kB vB {} t1) := by
    rw [minByLastAccess_cons _ _ _ mBCD, if_neg lcAB]
  have hminD : minByLastAccess ((mapSet [(hashKey kA, { setEntry cfg kA vA {} t0 with
      accessCount := (setEntry cfg kA vA {} t0).accessCount + 1,
      lastAccess := t3 }),
      (hashKey kB, setEntry cfg kB vB {} t1),
      (hashKey kC, setEntry cfg kC vC {} t2)] (hashKey kD)
      (setEntry cfg kD vD {} t4)).map Prod.snd) =
      some (setEntry cfg kB vB {} t1) := by
    rw [hmapD]
    simp only [List.map_cons, List.map_nil]
    exact mAll
  have h5 : set cfg (⟨[(hashKey kA, { setEntry cfg kA vA {} t0 with
      accessCount := (setEntry cfg kA vA {} t0).accessCount + 1,
      lastAccess := t3 }),
      (hashKey kB, setEntry cfg kB vB {} t1),
      (hashKey kC, setEntry cfg kC vC {} t2)], [],
      ⟨1, 0, 0, 0⟩⟩ : CacheState) kD vD {} t4 =
      (⟨mapDelete [(hashKey kA, { setEntry cfg kA vA {} t0 with
          accessCount := (setEntry cfg kA vA {} t0).accessCount + 1,
          lastAccess := t3 }),
        (hashKey kB, setEntry cfg kB vB {} t1),
        (hashKey kC, setEntry cfg kC vC {} t2),
        (hashKey kD, setEntry cfg kD vD {} t4)]
          (setEntry cfg kB vB {} t1).hash, [],
        ⟨1, 0, 0, 1⟩⟩ : CacheState) := by
    rw [set_memory_evict_min cfg _ kD vD {} t4 (setEntry cfg kB vB {} t1)
      hcD hmD hoverD' hminD, hmapD]
  have hfin : mapDelete [(hashKey kA, { setEntry cfg kA vA {} t0 with
      accessCount := (setEntry cfg kA vA {} t0).accessCount + 1,
      lastAccess := t3 }),
      (hashKey kB, setEntry cfg kB vB {} t1),
      (hashKey kC, setEntry cfg kC vC {} t2),
      (hashKey kD, setEntry cfg kD vD {} t4)]
      (setEntry cfg kB vB {} t1).hash =
      [(hashKey kA, { setEntry cfg kA vA {} t0 with
        accessCount := (setEntry cfg kA vA {} t0).accessCount + 1,
        lastAccess := t3 }),
      (hashKey kC, setEntry cfg kC vC {} t2),
      (hashKey kD, setEntry cfg kD vD {} t4)] := by
    rw [setEntry_hash]
    simp [mapDelete, nAB, nBC.symm, nBD.symm]
  have hall : lruScenario cfg kA kB kC kD vA vB vC vD t0 t1 t2 t3 t4 =
      (⟨[(hashKey kA, { setEntry cfg kA vA {} t0 with
          accessCount := (setEntry cfg kA vA {} t0).accessCount + 1,
          lastAccess := t3 }),
        (hashKey kC, setEntry cfg kC vC {} t2),
        (hashKey kD, setEntry cfg kD vD {} t4)], [],
        ⟨1, 0, 0, 1⟩⟩ : CacheState) := by
    rw [lruScenario, h1, h2, h3, h4, h5, hfin]
  refine ⟨?_, ?_, ?_, ?_, ?_⟩
  · rw [hall]
    simp only [mapHas]
    rw [mapGet_cons_ne _ _ _ _ nAB, mapGet_cons_ne _ _ _ _ nBC.symm,
      mapGet_cons_ne _ _ _ _ nBD.symm]
    rfl
  · rw [hall]
    simp only [mapHas]
    rw [mapGet_cons_self]
    rfl
  · rw [hall]
    simp only [mapHas]
    rw [mapGet_cons_ne _ _ _ _ nAC, mapGet_cons_self]
    rfl
  · rw [hall]
    simp only [mapHas]
    rw [mapGet_cons_ne _ _ _ _ nAD, mapGet_cons_ne _ _ _ _ nCD,
      mapGet_cons_self]
    rfl
  · rw [hall]

/-- Configuration for the LRU witness: 100-byte memory budget, 50-byte
compression threshold, default TTL 1000. -/
def cfgLru : CacheConfig :=
  { maxMemorySize := 100, maxDiskSize := 10000, compressionThreshold := 50,
    ttl := 1000, semanticThreshold := 85 / 100 }

/-- A 30-byte serialized value. -/
def v30 : JsValue := String.mk (List.replicate 30 'x')

/-- C8, witness: keys a, b, c, d with 30-byte values at times 0..4 under a
100-byte budget; inserting d pushes the tier to 120 bytes and evicts exactly
b. -/
theorem c8_lru_eviction_witness :
    mapHas (lruScenario cfgLru "a" "b" "c" "d" v30 v30 v30 v30 0 1 2 3
      4).memoryCache (hashKey "b") = false ∧
    mapHas (lruScenario cfgLru "a" "b" "c" "d" v30 v30 v30 v30 0 1 2 3
      4).memoryCache (hashKey "a") = true ∧
    mapHas (lruScenario cfgLru "a" "b" "c" "d" v30 v30 v30 v30 0 1 2 3
      4).memoryCache (hashKey "c") = true ∧
    mapHas (lruScenario cfgLru "a" "b" "c" "d" v30 v30 v30 v30 0 1 2 3
      4).memoryCache (hashKey "d") = true ∧
    (lruScenario cfgLru "a" "b" "c" "d" v30 v30 v30 v30 0 1 2 3
      4).stats.evictions = 1 :=
  c8_lru_eviction cfgLru "a" "b" "c" "d" v30 v30 v30 v30 0 1 2 3 4
    (by decide) (by decide) (by decide) (by decide) (by decide) (by decide)
    (by decide) (by decide) (by decide) (by decide)
    (by decide) (by decide) (by decide) (by decide)
    (by decide) (by decide) (by decide)
    (by decide) (by decide) (by decide) (by decide) (by decide)

/-- Modelled from the spec's words, as the refinement target for
`semanticGet`: the maximum similarity over a list of candidate entries
(0 when there are none). -/
def specMaxSimilarity (query : String) (entries : List CacheEntry) : ℚ :=
  (entries.map fun e => calculateSimilarity query e.key).foldr max 0

/-- The fold the scan performs, over the entry list. -/
def simFold (query : String) (threshold : ℚ) (l : List CacheEntry) :
    Option CacheEntry × ℚ :=
  l.foldl (simStep query threshold) (none, 0)

theorem specMaxSimilarity_append_singleton (q : String)
    (l : List CacheEntry) (e : CacheEntry) :
    specMaxSimilarity q (l ++ [e]) =
      max (specMaxSimilarity q l) (calculateSimilarity q e.key) := by
  induction l with
  | nil =>
      simp only [specMaxSimilarity, List.nil_append, List.map_cons,
        List.map_nil, List.foldr_cons, List.foldr_nil]
      exact max_comm _ _
  | cons a l ih =>
      simp only [specMaxSimilarity, List.cons_append, List.map_cons,
        List.foldr_cons] at ih ⊢
      rw [ih, max_assoc]

theorem simFold_characterization (query : String) (threshold : ℚ)
    (hth : 0 < threshold) (l : List CacheEntry) :
    (simFold query threshold l = (none, 0) ∧
      specMaxSimilarity query l < threshold) ∨
    (∃ e, e ∈ l ∧
      simFold query threshold l = (some e, calculateSimilarity query e.key) ∧
      calculateSimilarity query e.key = specMaxSimilarity query l ∧
      threshold ≤ specMaxSimilarity query l) := by
  induction l using List.reverseRecOn with
  | nil =>
      left
      refine ⟨rfl, ?_⟩
      simpa [specMaxSimilarity] using hth
  | append_singleton l e ih =>
      have hfold : simFold query threshold (l ++ [e]) =
          simStep query threshold (simFold query threshold l) e := by
        simp [simFold, List.foldl_append]
      have hmax := specMaxSimilarity_append_singleton query l e
      rcases ih with ⟨hf, hlt⟩ | ⟨e0, he0mem, hf, heq, hge⟩
      · by_cases hcase : threshold ≤ calculateSimilarity query e.key
        · right
          refine ⟨e, by simp, ?_, ?_, ?_⟩
          · rw [hfold, hf]
            simp only [simStep]
            rw [if_pos ⟨lt_of_lt_of_le hth hcase, hcase⟩]
          · rw [hmax, max_eq_right (le_of_lt (lt_of_lt_of_le hlt hcase))]
          · rw [hmax]
            exact le_max_of_le_right hcase
        · left
          constructor
          · rw [hfold, hf]
            simp only [simStep]
            rw [if_neg fun hand => hcase hand.2]
          · rw [hmax]
            exact max_lt hlt (lt_of_not_le hcase)
      · by_cases hcase : calculateSimilarity query e0.key <
            calculateSimilarity query e.key
        · right
          refine ⟨e, by simp, ?_, ?_, ?_⟩
          · rw [hfold, hf]
            simp only [simStep]
            rw [if_pos ⟨hcase, le_trans (heq ▸ hge) (le_of_lt hcase)⟩]
          · rw [hmax, ← heq, max_eq_right (le_of_lt hcase)]
          · rw [hmax]
            exact le_max_of_le_left hge
        · right
          refine ⟨e0, by simp [he0mem], ?_, ?_, ?_⟩
          · rw [hfold, hf]
            simp only [simStep]
            rw [if_neg fun hand => hcase hand.1]
          · rw [hmax, ← heq, max_eq_left (not_lt.mp hcase)]
          · rw [hmax]
            exact le_max_of_le_left hge

/-- C4, amended.  `semanticGet` scans all memory-tier entries, expired ones
included, and never the disk tier; among the candidates with similarity at
or above the threshold it tracks the strictly best one and returns its
stored value together with the maximum similarity — but only when that one
best candidate is itself not expired (an expired best candidate masks live
matches, see the counterexample).  Restricted to the claim-conformant case:
when every memory entry is live and the threshold is positive, the scan
returns exactly the maximum-scoring candidate's value and similarity when
the maximum reaches the threshold, and absent otherwise. -/
theorem c4_amended_semanticGet (st : CacheState) (query : String)
    (threshold : ℚ) (now : Nat)
    (hlive : ∀ p ∈ st.memoryCache, isExpired p.2 now = false)
    (hth : 0 < threshold) :
    (threshold ≤ specMaxSimilarity query (st.memoryCache.map Prod.snd) →
      ∃ e, e ∈ st.memoryCache.map Prod.snd ∧
        calculateSimilarity query e.key =
          specMaxSimilarity query (st.memoryCache.map Prod.snd) ∧
        (semanticGet st query threshold now).1 =
          some (e.value,
            specMaxSimilarity query (st.memoryCache.map Prod.snd))) ∧
    (specMaxSimilarity query (st.memoryCache.map Prod.snd) < threshold →
      (semanticGet st query threshold now).1 = none) := by
  have hfold : st.memoryCache.foldl
      (fun b p => simStep query threshold b p.2) (none, 0) =
      simFold query threshold (st.memoryCache.map Prod.snd) := by
    rw [simFold, List.foldl_map]
  rcases simFold_characterization query threshold hth
      (st.memoryCache.map Prod.snd) with
    ⟨hf, hlt⟩ | ⟨e0, hmem, hf, heq, hge⟩
  · constructor
    · intro hth2
      exact absurd hth2 (not_le.mpr hlt)
    · intro _
      simp only [semanticGet, hfold, hf]
  · constructor
    · intro _
      refine ⟨e0, hmem, heq, ?_⟩
      have hlive0 : isExpired e0 now = false := by
        obtain ⟨p, hp, hpe⟩ := List.mem_map.mp hmem
        rw [← hpe]
        exact hlive p hp
      simp only [semanticGet, hfold, hf, hlive0, Bool.false_eq_true, if_false]
      rw [heq]
    · intro hlt2
      exact absurd hge (not_le.mpr hlt2)

/-- Memory tier with one live entry, key `hello world`, for the C4
witness. -/
def liveSemState : CacheState :=
  set cfgBasic emptyState "hello world" "pv" {} 0

/-- C4, witness for the amended theorem: one live entry whose key equals
the query (similarity 1), threshold 1/2 — the scan returns the entry's
value with the maximum similarity. -/
theorem c4_amended_semanticGet_witness :
    ∃ e, e ∈ liveSemState.memoryCache.map Prod.snd ∧
      calculateSimilarity "hello world" e.key =
        specMaxSimilarity "hello world"
          (liveSemState.memoryCache.map Prod.snd) ∧
      (semanticGet liveSemState "hello world" (mkRat 1 2) 5).1 =
        some (e.value, specMaxSimilarity "hello world"
          (liveSemState.memoryCache.map Prod.snd)) :=
  (c4_amended_semanticGet liveSemState "hello world" (mkRat 1 2) 5
    (by decide) (by decide)).1 (by decide)

end AdvancedCache
